import Mathlib

/-!
Verification of the DSL tokenizer and token-stream reader (src/src/dsl.hpp).

The scanner and the cursor API are embedded shallowly: the character loop of
`TokenStream::tokenize` becomes a fuel-indexed recursion over the remaining
character list (each loop iteration consumes at least one character, so any
fuel at least the input length computes the whole scan), and the fatal
`assert` contract checks of the cursor API are modelled by `Option`: `none`
is an assertion failure.
-/

namespace Dsl

/-- Token kinds of the scanner (C++ `enum class TokenType`, dsl.hpp line 33). -/
inductive TokenType where
  | NUMBER
  | LITERAL
  | STRING
  | OPERATOR
  | SPECIAL
deriving DecidableEq

/-- A token: kind, the text span it covers (a slice of the source), and the
0-based line and column where it starts (C++ `struct Token`, lines 35-50). -/
structure Token where
  type : TokenType
  value : List Char
  line : Nat
  col : Nat
deriving DecidableEq

/-- C `isspace` restricted to ASCII (the classification the scanner uses):
space, tab, newline, vertical tab, form feed, carriage return. -/
def isSpace (c : Char) : Bool :=
  c == ' ' || c == '\t' || c == '\n' || c == '\x0b' || c == '\x0c' || c == '\r'

/-- Number of characters the string rule consumes after the opening quote
`q`: body characters, a backslash skipping the character after it when one
exists, and the closing quote when it is reached (C++ lines 93-99). -/
def strScan (q : Char) : List Char → Nat
  | [] => 0
  | c :: cs =>
    if c == q then 1
    else if c == '\\' then
      match cs with
      | [] => 1
      | _ :: cs2 => 2 + strScan q cs2
    else 1 + strScan q cs

/-- Number of characters the number rule consumes: digits, and at most one
dot overall (`hasDot` records whether a dot was already taken; C++ lines
103-110). -/
def numLen (hasDot : Bool) : List Char → Nat
  | [] => 0
  | c :: cs =>
    if c.isDigit then 1 + numLen hasDot cs
    else if !hasDot && c == '.' then 1 + numLen true cs
    else 0

/-- Number of characters the identifier rule consumes after its first
character: alphanumerics and underscores (C++ lines 113-115). -/
def identLen (cs : List Char) : Nat :=
  (cs.takeWhile (fun c => c.isAlphanum || c == '_')).length

/-- Whether the operator rule extends the one-character operator `c` into a
two-character operator using the next character `d` (C++ lines 121-128):
`c` is one of the extendable first characters and `d` is `=`, or the pair
is `&&`, or the pair is `||`. -/
def opExt (c d : Char) : Bool :=
  (c == '=' || c == '!' || c == '<' || c == '>' || c == '&' || c == '|' ||
      c == '+' || c == '-') &&
    (d == '=' || (c == '&' && d == '&') || (c == '|' && d == '|'))

/-- The span of the operator token starting at `c` with remaining input
`rest` (C++ lines 117-130): one character, or two when `opExt` allows. -/
def opSpan (c : Char) (rest : List Char) : List Char :=
  match rest with
  | [] => [c]
  | d :: _ => if opExt c d then [c, d] else [c]

/-- One segment of the scan: an emitted token, or a span of characters the
scanner skipped (whitespace, a newline, or a line comment). -/
inductive Seg where
  | tok (t : Token)
  | skip (span : List Char)
deriving DecidableEq

/-- The characters a segment covers. -/
def Seg.chars : Seg → List Char
  | .tok t => t.value
  | .skip s => s

/-- The scanner loop (C++ `TokenStream::tokenize`, lines 60-132), recorded as
the list of segments (emitted tokens interleaved with skipped spans) in
source order. `line` and `col` are the current 0-based position; `fuel`
bounds the number of loop iterations, and since every iteration consumes at
least one character any `fuel ≥ cs.length` computes the full scan. The
classification rules appear in the source's priority order: newline,
whitespace, line comment, quoted string, number, identifier, operator. -/
def tokenizeAux : Nat → Nat → Nat → List Char → List Seg
  | 0, _, _, _ => []
  | fuel + 1, line, col, cs =>
    match cs with
    | [] => []
    | c :: rest =>
      if c = '\n' then
        Seg.skip [c] :: tokenizeAux fuel (line + 1) 0 rest
      else if isSpace c then
        Seg.skip [c] :: tokenizeAux fuel line (col + 1) rest
      else if c = '/' ∧ rest.head? = some '/' then
        let k := (rest.takeWhile (fun x => x != '\n')).length
        Seg.skip (c :: rest.take k) :: tokenizeAux fuel line col (rest.drop k)
      else if c = '"' ∨ c = '\'' then
        let k := strScan c rest
        Seg.tok ⟨TokenType.STRING, c :: rest.take k, line, col⟩ ::
          tokenizeAux fuel line (col + (k + 1)) (rest.drop k)
      else if c.isDigit ∨ (c = '.' ∧ rest.head?.any Char.isDigit) then
        let k := numLen (c == '.') rest
        Seg.tok ⟨TokenType.NUMBER, c :: rest.take k, line, col⟩ ::
          tokenizeAux fuel line (col + (k + 1)) (rest.drop k)
      else if c.isAlpha ∨ c = '_' then
        let k := identLen rest
        Seg.tok ⟨TokenType.LITERAL, c :: rest.take k, line, col⟩ ::
          tokenizeAux fuel line (col + (k + 1)) (rest.drop k)
      else
        Seg.tok ⟨TokenType.OPERATOR, opSpan c rest, line, col⟩ ::
          tokenizeAux fuel line (col + (opSpan c rest).length)
            (rest.drop ((opSpan c rest).length - 1))

/-- The full scan of a source text: segments in source order. -/
def scan (s : List Char) : List Seg :=
  tokenizeAux s.length 0 0 s

/-- The token sequence the scanner produces for a source text (the `tokens`
vector of `TokenStream` after construction): the token segments of the scan,
in order. -/
def tokenize (s : List Char) : List Token :=
  (scan s).filterMap fun seg =>
    match seg with
    | .tok t => some t
    | .skip _ => none

/-- The kind and text of a token (the parts of a token the spec's examples
talk about, position aside). -/
def tokenKV (t : Token) : TokenType × List Char :=
  (t.type, t.value)

/-- Kinds and texts of a token list. -/
def tokenKVs (l : List Token) : List (TokenType × List Char) :=
  l.map tokenKV

/-- The token stream: the token sequence produced at construction and the
cursor `pos` (C++ `class TokenStream`, lines 52-247). -/
structure TokenStream where
  tokens : List Token
  pos : Nat
deriving DecidableEq

/-- Construction from source text (C++ lines 141-143): tokenize eagerly,
cursor at 0. -/
def mkStream (s : List Char) : TokenStream :=
  ⟨tokenize s, 0⟩

/-- C++ `peek` (lines 145-149): the token at the cursor, without advancing;
`none` models the fatal assertion at end-of-stream. -/
def TokenStream.peek (ts : TokenStream) : Option Token :=
  ts.tokens[ts.pos]?

/-- C++ `next` (lines 151-155): the token at the cursor, advancing the
cursor by one; `none` models the fatal assertion at end-of-stream. -/
def TokenStream.next (ts : TokenStream) : Option (Token × TokenStream) :=
  match ts.tokens[ts.pos]? with
  | some t => some (t, { ts with pos := ts.pos + 1 })
  | none => none

/-- C++ `consume` (lines 157-163): if the token at the cursor has exactly
the text `s`, advance and report true; otherwise leave the cursor in place
and report false. -/
def TokenStream.consume (ts : TokenStream) (s : List Char) : Bool × TokenStream :=
  match ts.tokens[ts.pos]? with
  | some t => if t.value = s then (true, { ts with pos := ts.pos + 1 }) else (false, ts)
  | none => (false, ts)

/-- The loop of C++ `get_list_until` (lines 165-181): take tokens until one
whose text is in `ends` (consuming it when `cons` is true), collecting the
taken tokens; reaching end-of-stream returns everything collected. `fuel`
bounds the iterations; each one advances the cursor, so any
`fuel ≥ tokens.length` computes the loop in full. -/
def TokenStream.get_list_untilAux :
    Nat → TokenStream → List (List Char) → Bool → List Token × TokenStream
  | 0, ts, _, _ => ([], ts)
  | fuel + 1, ts, ends, cons =>
    match ts.tokens[ts.pos]? with
    | none => ([], ts)
    | some t =>
      if t.value ∈ ends then
        ([], if cons then { ts with pos := ts.pos + 1 } else ts)
      else
        let r := TokenStream.get_list_untilAux fuel { ts with pos := ts.pos + 1 } ends cons
        (t :: r.1, r.2)

/-- C++ `get_list_until` (lines 165-181). -/
def TokenStream.get_list_until (ts : TokenStream) (ends : List (List Char))
    (cons : Bool) : List Token × TokenStream :=
  TokenStream.get_list_untilAux ts.tokens.length ts ends cons

/-- C++ `unwrap_parentheses` (lines 183-188): assert-consume `(`, collect
with `get_list_until({")"})` (whose default consumes the closing `)`), then
assert-consume `)` again; `none` models either failed assertion. -/
def TokenStream.unwrap_parentheses (ts : TokenStream) : Option (List Token × TokenStream) :=
  let a := ts.consume ['(']
  if a.1 then
    let r := a.2.get_list_until [[')']] true
    let b := r.2.consume [')']
    if b.1 then some (r.1, b.2) else none
  else none

/-- The loop of C++ `get_token_groups_in_between` (lines 196-205), with the
final flush of a non-empty current group (lines 206-208). `groups` and `cur`
are the accumulated groups and the current group; `fuel` bounds the
iterations, each of which advances the cursor by one. -/
def TokenStream.gtgAux :
    Nat → TokenStream → List Char → List Char → List (List Token) → List Token →
      List (List Token) × TokenStream
  | 0, ts, _, _, groups, cur =>
    (groups ++ if cur = [] then [] else [cur], ts)
  | fuel + 1, ts, endT, sep, groups, cur =>
    match ts.tokens[ts.pos]? with
    | none => (groups ++ if cur = [] then [] else [cur], ts)
    | some t =>
      let e := ts.consume endT
      if e.1 then
        (groups ++ if cur = [] then [] else [cur], e.2)
      else
        let s := ts.consume sep
        if s.1 then
          TokenStream.gtgAux fuel s.2 endT sep
            (if cur = [] then groups else groups ++ [cur]) []
        else
          TokenStream.gtgAux fuel { ts with pos := ts.pos + 1 } endT sep groups (cur ++ [t])

/-- C++ `get_token_groups_in_between` (lines 190-210): assert-consume the
start token (`none` models the failed assertion), then split the tokens up
to the end token into separator-delimited groups, never recording an empty
group. -/
def TokenStream.get_token_groups_in_between (ts : TokenStream)
    (startT endT sep : List Char) : Option (List (List Token) × TokenStream) :=
  let a := ts.consume startT
  if a.1 then some (TokenStream.gtgAux a.2.tokens.length a.2 endT sep [] []) else none

/-- C++ `has_more_tokens` (line 212). -/
def TokenStream.has_more_tokens (ts : TokenStream) : Bool :=
  decide (ts.pos < ts.tokens.length)

/-- C++ `eof` (line 214). -/
def TokenStream.eof (ts : TokenStream) : Bool :=
  decide (ts.pos ≥ ts.tokens.length)

/-- C++ `move_back` (lines 216-221): decrement the cursor; `none` models the
fatal assertion when the cursor is at 0. -/
def TokenStream.move_back (ts : TokenStream) : Option TokenStream :=
  if 0 < ts.pos then some { ts with pos := ts.pos - 1 } else none

/-- C++ `move_forward` (lines 223-227): increment the cursor; `none` models
the fatal assertion when the cursor is at end-of-stream. -/
def TokenStream.move_forward (ts : TokenStream) : Option TokenStream :=
  if ts.pos < ts.tokens.length then some { ts with pos := ts.pos + 1 } else none

/-- The closing quote `q` is never reached before end-of-input, scanning as
the string rule does (a backslash hides the character after it when one
exists). -/
def unterminated (q : Char) : List Char → Bool
  | [] => true
  | c :: cs =>
    if c == q then false
    else if c == '\\' then
      match cs with
      | [] => true
      | _ :: cs2 => unterminated q cs2
    else unterminated q cs

/-! ## Helper lemmas -/

theorem tokenizeAux_nil (fuel line col : Nat) : tokenizeAux fuel line col [] = [] := by
  cases fuel <;> rfl

theorem opSpan_append (c : Char) (rest : List Char) :
    opSpan c rest ++ rest.drop ((opSpan c rest).length - 1) = c :: rest := by
  match rest with
  | [] => rfl
  | d :: rest2 =>
    simp only [opSpan]
    split <;> simp

theorem tokenizeAux_chars :
    ∀ (fuel line col : Nat) (cs : List Char), cs.length ≤ fuel →
      ((tokenizeAux fuel line col cs).map Seg.chars).flatten = cs := by
  intro fuel
  induction fuel with
  | zero =>
    intro line col cs h
    have hnil : cs = [] := List.length_eq_zero.mp (Nat.le_zero.mp h)
    subst hnil
    rfl
  | succ fuel ih =>
    intro line col cs h
    match cs with
    | [] => rfl
    | c :: rest =>
      have hr : rest.length ≤ fuel := by
        simp only [List.length_cons] at h
        omega
      have hdrop : ∀ k : Nat, (rest.drop k).length ≤ fuel := by
        intro k
        calc (rest.drop k).length ≤ rest.length := by
              rw [List.length_drop]; omega
          _ ≤ fuel := hr
      simp only [tokenizeAux]
      split_ifs with h1 h2 h3 h4 h5 h6
      · simp [Seg.chars, ih _ _ _ hr]
      · simp [Seg.chars, ih _ _ _ hr]
      · simp [Seg.chars, ih _ _ _ (hdrop _), List.take_append_drop]
      · simp [Seg.chars, ih _ _ _ (hdrop _), List.take_append_drop]
      · simp [Seg.chars, ih _ _ _ (hdrop _), List.take_append_drop]
      · simp [Seg.chars, ih _ _ _ (hdrop _), List.take_append_drop]
      · simp only [List.map_cons, Seg.chars, List.flatten_cons, ih _ _ _ (hdrop _)]
        exact opSpan_append c rest

theorem tokenizeAux_types :
    ∀ (fuel line col : Nat) (cs : List Char) (t : Token),
      Seg.tok t ∈ tokenizeAux fuel line col cs → t.type ≠ TokenType.SPECIAL := by
  intro fuel
  induction fuel with
  | zero =>
    intro line col cs t h
    simp [tokenizeAux] at h
  | succ fuel ih =>
    intro line col cs t h
    match cs with
    | [] => simp [tokenizeAux] at h
    | c :: rest =>
      simp only [tokenizeAux] at h
      split_ifs at h <;> simp only [List.mem_cons] at h <;>
        rcases h with h | h <;>
        first
          | exact ih _ _ _ _ h
          | simp_all

theorem strScan_of_unterminated (q : Char) :
    ∀ (n : Nat) (cs : List Char), cs.length ≤ n → unterminated q cs = true →
      strScan q cs = cs.length := by
  intro n
  induction n with
  | zero =>
    intro cs h hu
    have hnil : cs = [] := List.length_eq_zero.mp (Nat.le_zero.mp h)
    subst hnil
    rfl
  | succ n ih =>
    intro cs h hu
    match cs with
    | [] => rfl
    | [c] =>
      simp only [unterminated] at hu
      simp only [strScan]
      split_ifs at hu ⊢
      · rfl
      · simp [strScan]
    | c :: d :: cs2 =>
      simp only [unterminated] at hu
      simp only [strScan]
      split_ifs at hu ⊢
      · have hrec := ih cs2 (by simp only [List.length_cons] at h ⊢; omega) hu
        simp only [List.length_cons]
        omega
      · have hrec := ih (d :: cs2) (by simp only [List.length_cons] at h ⊢; omega) hu
        simp only [List.length_cons] at hrec ⊢
        omega

theorem getElem?_some_lt {α : Type} {l : List α} {i : Nat} {a : α}
    (h : l[i]? = some a) : i < l.length := by
  by_contra hc
  push_neg at hc
  rw [List.getElem?_eq_none hc] at h
  cases h

theorem consume_tokens (ts : TokenStream) (s : List Char) :
    (ts.consume s).2.tokens = ts.tokens := by
  rcases hq : ts.tokens[ts.pos]? with _ | t
  · simp [TokenStream.consume, hq]
  · simp only [TokenStream.consume, hq]
    split <;> rfl

theorem consume_pos_le (ts : TokenStream) (s : List Char)
    (h : ts.pos ≤ ts.tokens.length) :
    (ts.consume s).2.pos ≤ ts.tokens.length := by
  rcases hq : ts.tokens[ts.pos]? with _ | t
  · simpa [TokenStream.consume, hq] using h
  · have hlt : ts.pos < ts.tokens.length := getElem?_some_lt hq
    simp only [TokenStream.consume, hq]
    split
    · simpa using hlt
    · exact h

theorem get_list_untilAux_inv :
    ∀ (fuel : Nat) (ts : TokenStream) (ends : List (List Char)) (cons : Bool),
      (TokenStream.get_list_untilAux fuel ts ends cons).2.tokens = ts.tokens ∧
      (ts.pos ≤ ts.tokens.length →
        (TokenStream.get_list_untilAux fuel ts ends cons).2.pos ≤ ts.tokens.length) := by
  intro fuel
  induction fuel with
  | zero =>
    intro ts ends cons
    exact ⟨rfl, fun h => h⟩
  | succ fuel ih =>
    intro ts ends cons
    rcases hq : ts.tokens[ts.pos]? with _ | t
    · simp only [TokenStream.get_list_untilAux, hq]
      exact ⟨trivial, fun h => h⟩
    · have hlt : ts.pos < ts.tokens.length := getElem?_some_lt hq
      simp only [TokenStream.get_list_untilAux, hq]
      split
      · split
        · exact ⟨rfl, fun _ => by simpa using hlt⟩
        · exact ⟨rfl, fun h => h⟩
      · have h2 := ih { ts with pos := ts.pos + 1 } ends cons
        refine ⟨h2.1, fun _ => ?_⟩
        exact h2.2 (by simpa using hlt)

theorem gtgAux_inv :
    ∀ (fuel : Nat) (ts : TokenStream) (endT sep : List Char)
      (groups : List (List Token)) (cur : List Token),
      (TokenStream.gtgAux fuel ts endT sep groups cur).2.tokens = ts.tokens ∧
      (ts.pos ≤ ts.tokens.length →
        (TokenStream.gtgAux fuel ts endT sep groups cur).2.pos ≤ ts.tokens.length) := by
  intro fuel
  induction fuel with
  | zero =>
    intro ts endT sep groups cur
    exact ⟨rfl, fun h => h⟩
  | succ fuel ih =>
    intro ts endT sep groups cur
    rcases hq : ts.tokens[ts.pos]? with _ | t
    · simp only [TokenStream.gtgAux, hq]
      exact ⟨trivial, fun h => h⟩
    · have hlt : ts.pos < ts.tokens.length := getElem?_some_lt hq
      simp only [TokenStream.gtgAux, hq]
      split
      · exact ⟨consume_tokens ts endT, fun h => consume_pos_le ts endT h⟩
      · split
        · have h2 := ih (ts.consume sep).2 endT sep
            (if cur = [] then groups else groups ++ [cur]) []
          have ht : (ts.consume sep).2.tokens = ts.tokens := consume_tokens ts sep
          refine ⟨by rw [h2.1, ht], fun h => ?_⟩
          have h3 := h2.2 (by rw [ht]; exact consume_pos_le ts sep h)
          rw [ht] at h3
          exact h3
        · have h2 := ih { ts with pos := ts.pos + 1 } endT sep groups (cur ++ [t])
          refine ⟨h2.1, fun _ => ?_⟩
          exact h2.2 (by simpa using hlt)

theorem append_no_empty {groups : List (List Token)} {cur : List Token}
    (h : [] ∉ groups) (hc : cur ≠ []) : [] ∉ groups ++ [cur] := by
  intro hmem
  rcases List.mem_append.mp hmem with h1 | h1
  · exact h h1
  · rw [List.mem_singleton] at h1
    exact hc h1.symm

theorem flush_no_empty {groups : List (List Token)} {cur : List Token}
    (h : [] ∉ groups) : [] ∉ groups ++ if cur = [] then [] else [cur] := by
  split
  · simpa using h
  · rename_i hc
    exact append_no_empty h hc

theorem gtgAux_no_empty :
    ∀ (fuel : Nat) (ts : TokenStream) (endT sep : List Char)
      (groups : List (List Token)) (cur : List Token),
      [] ∉ groups → [] ∉ (TokenStream.gtgAux fuel ts endT sep groups cur).1 := by
  intro fuel
  induction fuel with
  | zero =>
    intro ts endT sep groups cur h
    exact flush_no_empty h
  | succ fuel ih =>
    intro ts endT sep groups cur h
    rcases hq : ts.tokens[ts.pos]? with _ | t
    · simp only [TokenStream.gtgAux, hq]
      exact flush_no_empty h
    · simp only [TokenStream.gtgAux, hq]
      split
      · exact flush_no_empty h
      · split
        · refine ih _ _ _ _ _ ?_
          split
          · exact h
          · rename_i hc
            exact append_no_empty h hc
        · exact ih _ _ _ _ _ h

/-! ## The claims -/

/-- C1 (code bug): on the well-formed input consisting of a parenthesized
list of a and b, `unwrap_parentheses` fails its trailing assertion — the
call to `get_list_until` has already consumed the closing parenthesis
(its consume flag defaults to true), so the subsequent assert-consume of a
closing parenthesis finds end-of-stream and aborts. The collected list and
cursor just before that assertion are exactly what the claim says the
operation returns (the tokens a, comma, b with the cursor at end-of-stream),
and on a stream not positioned at an opening parenthesis the operation is
indeed a contract failure. -/
theorem c1_unwrap_parentheses_aborts :
    (mkStream ("(a, b)".data)).unwrap_parentheses = none ∧
    tokenKVs ((((mkStream ("(a, b)".data)).consume ['(']).2.get_list_until [[')']] true).1) =
      [(TokenType.LITERAL, ['a']), (TokenType.OPERATOR, [',']),
        (TokenType.LITERAL, ['b'])] ∧
    ((((mkStream ("(a, b)".data)).consume ['(']).2.get_list_until [[')']] true).2).pos =
      (mkStream ("(a, b)".data)).tokens.length ∧
    (∀ ts : TokenStream, (ts.consume ['(']).1 = false → ts.unwrap_parentheses = none) := by
  refine ⟨by decide, by decide, by decide, ?_⟩
  intro ts h
  simp [TokenStream.unwrap_parentheses, h]

/-- C2 counterexample: tokenizing the five-character input 1.5.6 does not
produce the claimed sequence NUMBER 1.5, OPERATOR dot, NUMBER 6. -/
theorem c2_counterexample :
    ¬ tokenKVs (tokenize ("1.5.6".data)) =
        [(TokenType.NUMBER, "1.5".data), (TokenType.OPERATOR, ".".data),
          (TokenType.NUMBER, "6".data)] := by
  decide

/-- C2 (amended): tokenizing 1.5.6 yields exactly two tokens, NUMBER 1.5
then NUMBER .6 — the second dot ends the first number token, but because it
is immediately followed by a digit it starts a new NUMBER token under the
number rule rather than being emitted as an OPERATOR. -/
theorem c2_number_rule_amended :
    tokenKVs (tokenize ("1.5.6".data)) =
      [(TokenType.NUMBER, "1.5".data), (TokenType.NUMBER, ".6".data)] := by
  decide

/-- C3 counterexample: tokenizing the two-character input of a vertical bar
then an equals sign does not produce two one-character OPERATOR tokens. -/
theorem c3_counterexample :
    ¬ tokenKVs (tokenize ("|=".data)) =
        [(TokenType.OPERATOR, "|".data), (TokenType.OPERATOR, "=".data)] := by
  decide

/-- C3 (amended): the operator rule takes one character and extends it to
two exactly when the first character is one of the extendable set, which
includes the vertical bar, and the next character exists and is an equals
sign, or the pair is two ampersands or two vertical bars; no operator is
longer than two characters; in particular the input consisting of a
vertical bar then an equals sign yields the single two-character OPERATOR
token rather than two one-character tokens. -/
theorem c3_operator_rule_amended :
    (∀ (fuel line col : Nat) (c : Char) (rest : List Char),
        ¬c = '\n' → ¬isSpace c = true → ¬(c = '/' ∧ rest.head? = some '/') →
        ¬(c = '"' ∨ c = '\'') →
        ¬(c.isDigit = true ∨ (c = '.' ∧ rest.head?.any Char.isDigit = true)) →
        ¬(c.isAlpha = true ∨ c = '_') →
        tokenizeAux (fuel + 1) line col (c :: rest) =
          Seg.tok ⟨TokenType.OPERATOR, opSpan c rest, line, col⟩ ::
            tokenizeAux fuel line (col + (opSpan c rest).length)
              (rest.drop ((opSpan c rest).length - 1))) ∧
    (∀ (c : Char) (rest : List Char), (opSpan c rest).length ≤ 2) ∧
    (∀ (c : Char), opSpan c [] = [c]) ∧
    (∀ (c d : Char) (rest2 : List Char),
        opSpan c (d :: rest2) = if opExt c d then [c, d] else [c]) ∧
    (∀ (c d : Char),
        opExt c d = true ↔
          ((c = '=' ∨ c = '!' ∨ c = '<' ∨ c = '>' ∨ c = '&' ∨ c = '|' ∨
              c = '+' ∨ c = '-') ∧
            (d = '=' ∨ (c = '&' ∧ d = '&') ∨ (c = '|' ∧ d = '|')))) ∧
    tokenKVs (tokenize ("|=".data)) = [(TokenType.OPERATOR, "|=".data)] := by
  refine ⟨?_, ?_, ?_, ?_, ?_, by decide⟩
  · intro fuel line col c rest h1 h2 h3 h4 h5 h6
    simp only [tokenizeAux]
    rw [if_neg h1, if_neg h2, if_neg h3, if_neg h4, if_neg h5, if_neg h6]
  · intro c rest
    match rest with
    | [] => simp [opSpan]
    | d :: rest2 =>
      simp only [opSpan]
      split <;> simp
  · intro c
    rfl
  · intro c d rest2
    rfl
  · intro c d
    simp only [opExt, Bool.or_eq_true, Bool.and_eq_true, beq_iff_eq]
    tauto

/-- C4: concatenating, in source order, the spans of the emitted tokens with
the spans skipped as whitespace, newlines and comments reconstructs the
source text exactly: no character is lost or duplicated, and the scan (a
total function) never fails. -/
theorem c4_scan_reconstructs (s : List Char) : ((scan s).map Seg.chars).flatten = s :=
  tokenizeAux_chars s.length 0 0 s (Nat.le_refl _)

/-- C5: when the scanner reaches an opening quote whose closing quote is
never reached before end-of-input, it raises no error and emits exactly one
STRING token spanning from the opening quote to the end of the input. -/
theorem c5_unterminated_string (q : Char) (rest : List Char) (line col fuel : Nat)
    (hq : q = '"' ∨ q = '\'') (hu : unterminated q rest = true)
    (hfuel : rest.length < fuel) :
    tokenizeAux fuel line col (q :: rest) =
      [Seg.tok ⟨TokenType.STRING, q :: rest, line, col⟩] := by
  obtain ⟨f, rfl⟩ : ∃ f, fuel = f + 1 := ⟨fuel - 1, by omega⟩
  have hk : strScan q rest = rest.length :=
    strScan_of_unterminated q rest.length rest (Nat.le_refl _) hu
  rcases hq with rfl | rfl <;>
  · simp only [tokenizeAux]
    rw [if_neg (by decide), if_neg (by decide),
      if_neg (fun hh => absurd hh.1 (by decide)),
      if_pos (by decide)]
    rw [hk, List.take_length, List.drop_length, tokenizeAux_nil]

/-- C5 witness: scanning the 3-character input consisting of a double quote
followed by the letters a and b (no closing quote) yields exactly one STRING
token spanning the whole input. -/
theorem c5_unterminated_string_witness :
    scan ("\x22ab".data) = [Seg.tok ⟨TokenType.STRING, "\x22ab".data, 0, 0⟩] := by
  have h := c5_unterminated_string '"' ("ab".data) 0 0 3 (Or.inl rfl) (by decide) (by decide)
  exact h

/-- C6: on the input of a parenthesized list of a, b and a trailing comma,
group extraction returns exactly the two groups of the single tokens a and
b with the cursor past the closing parenthesis (at end-of-stream), and in
general the returned sequence never contains an empty group. -/
theorem c6_token_groups :
    (((mkStream ("(a, b, )".data)).get_token_groups_in_between ['('] [')'] [',']).map
        fun p => (p.1.map (List.map tokenKV), p.2.pos)) =
      some ([[(TokenType.LITERAL, ['a'])], [(TokenType.LITERAL, ['b'])]], 6) ∧
    (mkStream ("(a, b, )".data)).tokens.length = 6 ∧
    (∀ (ts : TokenStream) (startT endT sep : List Char) (gs : List (List Token))
        (ts' : TokenStream),
      ts.get_token_groups_in_between startT endT sep = some (gs, ts') → [] ∉ gs) := by
  refine ⟨by decide, by decide, ?_⟩
  intro ts startT endT sep gs ts' h
  by_cases ha : (ts.consume startT).1 = true
  · simp only [TokenStream.get_token_groups_in_between, ha, if_true] at h
    have h2 := Option.some.inj h
    have h3 := gtgAux_no_empty ((ts.consume startT).2.tokens.length)
      (ts.consume startT).2 endT sep [] [] (by simp)
    rw [h2] at h3
    simpa using h3
  · simp [TokenStream.get_token_groups_in_between, ha] at h

/-- C7: the cursor invariant `0 ≤ pos ≤ len(tokens)` holds at construction
(the cursor starts at 0) and is preserved by every cursor operation, none of
which adds, removes or changes a token; `pos = len(tokens)` denotes
end-of-stream (`eof` true, `peek` a contract failure). The remaining
operations of the class (`peek`, `has_more_tokens`, `eof`, `get_line`,
`print_error_at_current`) are const member functions returning values, with
no access to the cursor or token sequence for writing. -/
theorem c7_cursor_invariant :
    (∀ s : List Char, (mkStream s).pos = 0 ∧ (mkStream s).pos ≤ (mkStream s).tokens.length) ∧
    (∀ (ts : TokenStream) (t : Token) (ts' : TokenStream), ts.next = some (t, ts') →
      ts'.tokens = ts.tokens ∧ ts'.pos ≤ ts'.tokens.length) ∧
    (∀ (ts : TokenStream) (s : List Char), ts.pos ≤ ts.tokens.length →
      (ts.consume s).2.tokens = ts.tokens ∧ (ts.consume s).2.pos ≤ ts.tokens.length) ∧
    (∀ (ts : TokenStream) (ends : List (List Char)) (cons : Bool),
      ts.pos ≤ ts.tokens.length →
      (ts.get_list_until ends cons).2.tokens = ts.tokens ∧
        (ts.get_list_until ends cons).2.pos ≤ ts.tokens.length) ∧
    (∀ (ts : TokenStream) (r : List Token) (ts' : TokenStream),
      ts.unwrap_parentheses = some (r, ts') → ts.pos ≤ ts.tokens.length →
      ts'.tokens = ts.tokens ∧ ts'.pos ≤ ts'.tokens.length) ∧
    (∀ (ts : TokenStream) (startT endT sep : List Char) (gs : List (List Token))
        (ts' : TokenStream),
      ts.get_token_groups_in_between startT endT sep = some (gs, ts') →
      ts.pos ≤ ts.tokens.length →
      ts'.tokens = ts.tokens ∧ ts'.pos ≤ ts'.tokens.length) ∧
    (∀ (ts ts' : TokenStream), ts.move_back = some ts' → ts.pos ≤ ts.tokens.length →
      ts'.tokens = ts.tokens ∧ ts'.pos ≤ ts'.tokens.length) ∧
    (∀ (ts ts' : TokenStream), ts.move_forward = some ts' →
      ts'.tokens = ts.tokens ∧ ts'.pos ≤ ts'.tokens.length) ∧
    (∀ ts : TokenStream, (ts.eof = true ↔ ts.tokens.length ≤ ts.pos) ∧
      (ts.has_more_tokens = true ↔ ts.pos < ts.tokens.length) ∧
      (ts.peek = none ↔ ts.tokens.length ≤ ts.pos)) := by
  refine ⟨?_, ?_, ?_, ?_, ?_, ?_, ?_, ?_, ?_⟩
  · exact fun s => ⟨rfl, Nat.zero_le _⟩
  · intro ts t ts' h
    rcases hq : ts.tokens[ts.pos]? with _ | t0
    · simp [TokenStream.next, hq] at h
    · have hlt : ts.pos < ts.tokens.length := getElem?_some_lt hq
      simp only [TokenStream.next, hq] at h
      have h2 := Option.some.inj h
      have hts : ts' = { ts with pos := ts.pos + 1 } := (congrArg Prod.snd h2).symm
      subst hts
      exact ⟨rfl, by simpa using hlt⟩
  · exact fun ts s h => ⟨consume_tokens ts s, consume_pos_le ts s h⟩
  · intro ts ends cons h
    have h2 := get_list_untilAux_inv ts.tokens.length ts ends cons
    exact ⟨h2.1, h2.2 h⟩
  · intro ts r ts' h hinv
    by_cases ha : (ts.consume ['(']).1 = true
    · simp only [TokenStream.unwrap_parentheses, ha, if_true] at h
      by_cases hb : ((((ts.consume ['(']).2.get_list_until [[')']] true).2).consume [')']).1 = true
      · simp only [hb, if_true] at h
        have h2 := Option.some.inj h
        have hts :
            ts' = ((((ts.consume ['(']).2.get_list_until [[')']] true).2).consume [')']).2 :=
          (congrArg Prod.snd h2).symm
        subst hts
        have t1 : (ts.consume ['(']).2.tokens = ts.tokens := consume_tokens ts ['(']
        have p1 : (ts.consume ['(']).2.pos ≤ ts.tokens.length := consume_pos_le ts ['('] hinv
        have g := get_list_untilAux_inv ((ts.consume ['(']).2.tokens.length)
          (ts.consume ['(']).2 [[')']] true
        have t2 : (((ts.consume ['(']).2.get_list_until [[')']] true).2).tokens = ts.tokens :=
          g.1.trans t1
        have p2 : (((ts.consume ['(']).2.get_list_until [[')']] true).2).pos ≤
            ts.tokens.length :=
          le_of_le_of_eq (g.2 (by rw [t1]; exact p1)) (by rw [t1])
        have t3 := consume_tokens (((ts.consume ['(']).2.get_list_until [[')']] true).2) [')']
        have p3 := consume_pos_le (((ts.consume ['(']).2.get_list_until [[')']] true).2) [')']
          (by rw [t2]; exact p2)
        refine ⟨t3.trans t2, ?_⟩
        rw [t3.trans t2, ← t2]
        exact p3
      · simp [hb] at h
    · simp [TokenStream.unwrap_parentheses, ha] at h
  · intro ts startT endT sep gs ts' h hinv
    by_cases ha : (ts.consume startT).1 = true
    · simp only [TokenStream.get_token_groups_in_between, ha, if_true] at h
      have h2 := Option.some.inj h
      have hts : ts' = (TokenStream.gtgAux ((ts.consume startT).2.tokens.length)
          (ts.consume startT).2 endT sep [] []).2 :=
        (congrArg Prod.snd h2).symm
      subst hts
      have t1 : (ts.consume startT).2.tokens = ts.tokens := consume_tokens ts startT
      have p1 : (ts.consume startT).2.pos ≤ ts.tokens.length := consume_pos_le ts startT hinv
      have g := gtgAux_inv ((ts.consume startT).2.tokens.length) (ts.consume startT).2
        endT sep [] []
      have htok := g.1.trans t1
      refine ⟨htok, ?_⟩
      have hpos0 := g.2 (by rw [t1]; exact p1)
      rw [htok, ← t1]
      exact hpos0
    · simp [TokenStream.get_token_groups_in_between, ha] at h
  · intro ts ts' h hinv
    simp only [TokenStream.move_back] at h
    split at h
    · have h2 := Option.some.inj h
      subst h2
      refine ⟨rfl, ?_⟩
      simp only
      omega
    · cases h
  · intro ts ts' h
    simp only [TokenStream.move_forward] at h
    split at h
    · have h2 := Option.some.inj h
      subst h2
      rename_i hlt
      exact ⟨rfl, by simpa using hlt⟩
    · cases h
  · intro ts
    refine ⟨?_, ?_, ?_⟩
    · simp [TokenStream.eof, ge_iff_le]
    · simp [TokenStream.has_more_tokens]
    · simp [TokenStream.peek, List.getElem?_eq_none_iff]

/-- C8: for a stream whose cursor is not at end-of-stream, `next` returns
the token at the cursor and advances the cursor by one, a following
`move_back` restores exactly the pre-`next` stream, and `peek` on the
restored stream returns the same token that `next` returned. -/
theorem c8_next_move_back (ts : TokenStream) (h : ts.pos < ts.tokens.length) :
    ts.next = some (ts.tokens[ts.pos], { ts with pos := ts.pos + 1 }) ∧
    TokenStream.move_back { ts with pos := ts.pos + 1 } = some ts ∧
    ts.peek = some ts.tokens[ts.pos] := by
  refine ⟨?_, ?_, ?_⟩
  · simp [TokenStream.next, List.getElem?_eq_getElem h]
  · simp [TokenStream.move_back]
  · simp [TokenStream.peek, List.getElem?_eq_getElem h]

/-- C8 witness: on the one-token stream positioned at 0, `next` returns the
token and the advanced stream. -/
theorem c8_next_move_back_witness :
    (⟨[⟨TokenType.LITERAL, ['x'], 0, 0⟩], 0⟩ : TokenStream).next =
        some (⟨TokenType.LITERAL, ['x'], 0, 0⟩,
          ⟨[⟨TokenType.LITERAL, ['x'], 0, 0⟩], 1⟩) ∧
      TokenStream.move_back ⟨[⟨TokenType.LITERAL, ['x'], 0, 0⟩], 1⟩ =
        some ⟨[⟨TokenType.LITERAL, ['x'], 0, 0⟩], 0⟩ ∧
      TokenStream.peek ⟨[⟨TokenType.LITERAL, ['x'], 0, 0⟩], 0⟩ =
        some ⟨TokenType.LITERAL, ['x'], 0, 0⟩ := by
  have h := c8_next_move_back ⟨[⟨TokenType.LITERAL, ['x'], 0, 0⟩], 0⟩ (by decide)
  exact h

/-- C9: inside a quoted string a backslash makes the scanner advance past
the following character without interpreting it (for either quote
character), so an escaped quote does not terminate the string: the
six-character input of quote, a, backslash, quote, b, quote tokenizes to a
single STRING token spanning the whole input, closing quote included. -/
theorem c9_escaped_quote :
    (∀ (c : Char) (cs : List Char), strScan '"' ('\\' :: c :: cs) = 2 + strScan '"' cs) ∧
    (∀ (c : Char) (cs : List Char), strScan '\'' ('\\' :: c :: cs) = 2 + strScan '\'' cs) ∧
    tokenize (['"', 'a', '\\', '"', 'b', '"']) =
      [⟨TokenType.STRING, ['"', 'a', '\\', '"', 'b', '"'], 0, 0⟩] := by
  refine ⟨fun c cs => rfl, fun c cs => rfl, by decide⟩

/-- C10: the scanner never emits a token of kind SPECIAL — every emitted
token is NUMBER, LITERAL, STRING or OPERATOR. -/
theorem c10_no_special_tokens (s : List Char) (t : Token) (h : t ∈ tokenize s) :
    t.type = TokenType.NUMBER ∨ t.type = TokenType.LITERAL ∨
      t.type = TokenType.STRING ∨ t.type = TokenType.OPERATOR := by
  have h2 : Seg.tok t ∈ scan s := by
    simp only [tokenize, List.mem_filterMap] at h
    obtain ⟨seg, hseg, hf⟩ := h
    match seg with
    | Seg.tok u =>
      have hut : u = t := by simpa using hf
      subst hut
      exact hseg
    | Seg.skip sp => simp at hf
  have h3 := tokenizeAux_types s.length 0 0 s t h2
  cases ht : t.type
  case NUMBER => exact Or.inl rfl
  case LITERAL => exact Or.inr (Or.inl rfl)
  case STRING => exact Or.inr (Or.inr (Or.inl rfl))
  case OPERATOR => exact Or.inr (Or.inr (Or.inr rfl))
  case SPECIAL => exact absurd ht h3

/-- C10 witness: the single token of the one-letter input x is a LITERAL,
hence of one of the four produced kinds. -/
theorem c10_no_special_tokens_witness :
    (⟨TokenType.LITERAL, ['x'], 0, 0⟩ : Token).type = TokenType.NUMBER ∨
      (⟨TokenType.LITERAL, ['x'], 0, 0⟩ : Token).type = TokenType.LITERAL ∨
      (⟨TokenType.LITERAL, ['x'], 0, 0⟩ : Token).type = TokenType.STRING ∨
      (⟨TokenType.LITERAL, ['x'], 0, 0⟩ : Token).type = TokenType.OPERATOR :=
  c10_no_special_tokens ("x".data) ⟨TokenType.LITERAL, ['x'], 0, 0⟩ (by decide)

end Dsl
